import Mathlib

/-!
Verification of the `safety-net` circuit-netlist library.

The four-state logic value type is embedded directly from `src/logic.rs`
and the error enumeration from `src/error.rs`.  The netlist graph engine
(identifiers, nets, instances, the owning netlist container and its
mutation / validation operations, declared in `lib.rs` as the modules
`circuit`, `netlist` and `graph`) is not shipped in this source tree —
only its tests and callers are — so those parts are modelled from the
specification document and settled against that model.
-/

namespace SafetyNet

/-! ## Identifiers (modelled from the spec) -/

/-- Modelled from the spec: the legal bare-identifier character set used by
`Identifier::is_escaped` (escaping is required when the name contains
characters illegal in a bare identifier). -/
def legalBareChar (c : Char) : Bool :=
  c.isAlphanum || c = '_'

/-- Modelled from the spec: an identifier needs escaping when its name
begins with a digit or contains any character outside the legal
bare-identifier set. -/
def needsEscape (s : String) : Bool :=
  match s.data with
  | [] => false
  | c :: cs => c.isDigit || (c :: cs).any (fun x => !legalBareChar x)

/-- Modelled from the spec: an `Identifier` is an immutable name string
plus a "needs escaping" flag (the module `circuit` is absent from the
sources). -/
structure Identifier where
  name : String
  escaped : Bool
  deriving DecidableEq, Repr

/-- Modelled from the spec: construct an identifier from raw text.  A
leading escape marker (backslash) is stripped into the flag, so that
identifiers compare by their normalized value; otherwise the flag is
derived from the name. -/
def Identifier.new (s : String) : Identifier :=
  match s.data with
  | '\\' :: rest => ⟨String.mk rest, true⟩
  | _ => ⟨s, needsEscape s⟩

/-- Modelled from the spec: whether the identifier needs escaping. -/
def Identifier.is_escaped (i : Identifier) : Bool :=
  i.escaped

/-- Modelled from the spec: flattening of bracket-delimited indices — the
opening bracket becomes an underscore and the closing bracket is
dropped, so `id[1]` becomes `id_1`. -/
def flattenChars : List Char → List Char
  | [] => []
  | c :: cs =>
      if c = '[' then '_' :: flattenChars cs
      else if c = ']' then flattenChars cs
      else c :: flattenChars cs

/-- Modelled from the spec: `flattenChars` lifted to strings. -/
def flattenStr (s : String) : String :=
  String.mk (flattenChars s.data)

/-- Modelled from the spec: concatenation of identifiers (`Add` on
`Identifier` in the tests) joins the flattened operand names with an
underscore and marks the result escaped if either operand was. -/
def Identifier.concat (a b : Identifier) : Identifier :=
  ⟨flattenStr a.name ++ "_" ++ flattenStr b.name, a.escaped || b.escaped⟩

/-- Modelled from the spec: the rendered text of an identifier — the
escape marker is prefixed when the identifier needs escaping. -/
def Identifier.rendered (i : Identifier) : String :=
  if i.escaped then "\\" ++ i.name else i.name

/-- A string with no bracket characters (used to state that flattening is
the identity away from bracket syntax). -/
def bracketFree (s : String) : Bool :=
  s.data.all (fun c => !(c = '[' || c = ']'))

/-! ## Nets (modelled from the spec) -/

/-- Modelled from the spec: a `Net` is a reference-typed handle to a
signal, equal exactly when it denotes the same underlying object — a
boundary input, or output port `port` of the instance stored under
arena tag `tag` (the spec's design notes prescribe an arena-and-index
ownership model, so handles are stable tags, untouched by removal of
other objects). -/
inductive Net where
  | input (tag : Nat)
  | instOutput (tag : Nat) (port : Nat)
  deriving DecidableEq, Repr

/-- The arena tag of the object a net refers to. -/
def Net.tag : Net → Nat
  | .input t => t
  | .instOutput t _ => t

/-! ## Errors (embedded from `src/error.rs`) -/

/-- Embedded from `src/error.rs`: the error enumeration of the library,
variant for variant, with the same payload shapes. -/
inductive Error where
  | CycleDetected : List Net → Error
  | ParseError : String → Error
  | NonuniqueNets : List Net → Error
  | NonuniqueInsts : List Identifier → Error
  | NoOutputs : Error
  | InstantiableError : String → Error
  | DanglingReference : List Net → Error
  | ArgumentMismatch : Nat → Nat → Error
  | InputNeedsAlias : Net → Error
  | NetNotFound : Net → Error
  deriving DecidableEq, Repr

/-! ## Four-state logic (embedded from `src/logic.rs`) -/

/-- Embedded from `src/logic.rs`: the four-state logic enum. -/
inductive Logic where
  | False
  | True
  | X
  | Z
  deriving DecidableEq, Repr

namespace Logic

/-- Embedded from `Logic::unwrap` in `src/logic.rs`; the `panic!` arm is
modelled as `none`. -/
def unwrap : Logic → Option Bool
  | .True => some true
  | .False => some false
  | _ => none

/-- Embedded from `Logic::expect` in `src/logic.rs`; the `panic!(msg)` arm
is modelled as `none` (the message never influences a returned value). -/
def expect : Logic → String → Option Bool
  | .True, _ => some true
  | .False, _ => some false
  | _, _ => none

/-- Embedded from `Logic::is_dont_care` in `src/logic.rs`. -/
def is_dont_care : Logic → Bool
  | .X => true
  | _ => false

/-- Embedded from `Logic::as_str` in `src/logic.rs`. -/
def as_str : Logic → String
  | .True => "1'b1"
  | .False => "1'b0"
  | .X => "1'bx"
  | .Z => "1'bz"

/-- Embedded from `Logic::from_bool` in `src/logic.rs`. -/
def from_bool (b : Bool) : Logic :=
  if b then .True else .False

/-- Embedded from `impl BitAnd for Logic` in `src/logic.rs`, arm for arm. -/
def bitand : Logic → Logic → Logic
  | .False, _ => .False
  | _, .False => .False
  | .True, .True => .True
  | .True, .Z => .X
  | .Z, .True => .X
  | .X, _ => .X
  | _, .X => .X
  | .Z, .Z => .X

/-- Embedded from `impl BitOr for Logic` in `src/logic.rs`, arm for arm. -/
def bitor : Logic → Logic → Logic
  | .True, _ => .True
  | _, .True => .True
  | .False, .False => .False
  | _, _ => .X

/-- Embedded from `impl Not for Logic` in `src/logic.rs`. -/
def lnot : Logic → Logic
  | .False => .True
  | .True => .False
  | _ => .X

/-- Embedded from `impl Display for Logic` in `src/logic.rs`: the rendered
text of each value (the same strings as `as_str`). -/
def toStr : Logic → String
  | .True => "1'b1"
  | .False => "1'b0"
  | .X => "1'bx"
  | .Z => "1'bz"

/-- Embedded from `impl FromStr for Logic` in `src/logic.rs`: the Rust
`match` over string literals becomes an equality chain. -/
def from_str (s : String) : Except Error Logic :=
  if s = "1'b1" ∨ s = "1'h1" then .ok .True
  else if s = "1'b0" ∨ s = "1'h0" then .ok .False
  else if s = "1'bx" ∨ s = "1'hx" then .ok .X
  else if s = "1'bz" ∨ s = "1'hz" then .ok .Z
  else .error (.ParseError s)

/-- The eight accepted literal spellings of four-state logic values. -/
def literals : List String :=
  ["1'b1", "1'h1", "1'b0", "1'h0", "1'bx", "1'hx", "1'bz", "1'hz"]

end Logic

/-! ## Cells, instances and the netlist (modelled from the spec) -/

/-- Modelled from the spec: the slice of the cell capability interface the
claims need — a cell reports a name, an ordered list of input ports and
an ordered list of output ports (`Gate::new_logical` in the tests). -/
structure Gate where
  name : String
  inputs : List String
  outputs : List String
  deriving DecidableEq, Repr

/-- Modelled from the spec: the cell interface's ordered input-port list. -/
def Gate.input_ports (g : Gate) : List String :=
  g.inputs

/-- Modelled from the spec: an object of the netlist — a boundary input or
a placed instance with its identifier, cell payload and one bound driver
net per declared input port. -/
inductive Object where
  | input (name : String)
  | inst (id : Identifier) (gate : Gate) (conns : List Net)
  deriving DecidableEq, Repr

/-- Whether the object is a boundary input. -/
def Object.isInput : Object → Bool
  | .input _ => true
  | .inst _ _ _ => false

/-- The driver nets bound to the object's input ports (a boundary input
has none). -/
def Object.conns : Object → List Net
  | .input _ => []
  | .inst _ _ conns => conns

/-- Rewrite every bound driver net of the object with `f`. -/
def Object.mapConns (f : Net → Net) : Object → Object
  | .input n => .input n
  | .inst id g conns => .inst id g (conns.map f)

/-- Modelled from the spec: the owning netlist container — an
insertion-ordered arena of tagged objects plus the exposed output
bindings in exposure order. -/
structure Netlist where
  name : String
  nextTag : Nat
  objects : List (Nat × Object)
  outputs : List (String × Net)
  deriving DecidableEq, Repr

/-- Modelled from the spec: `Netlist::new` creates an empty netlist. -/
def Netlist.new (name : String) : Netlist :=
  ⟨name, 0, [], []⟩

/-- Modelled from the spec: `insert_input` appends a new boundary input
object and returns its net. -/
def Netlist.insert_input (nl : Netlist) (n : String) : Netlist × Net :=
  (⟨nl.name, nl.nextTag + 1, nl.objects ++ [(nl.nextTag, .input n)], nl.outputs⟩,
   .input nl.nextTag)

/-- Modelled from the spec: `insert_gate` validates
`connections.len() == cell.input_ports().len()`; a mismatch fails with
the argument-count error before any mutation occurs, otherwise the
instance is appended and its fresh arena tag returned. -/
def Netlist.insert_gate (nl : Netlist) (g : Gate) (id : Identifier) (conns : List Net) :
    Netlist × Except Error Nat :=
  if conns.length = g.input_ports.length then
    (⟨nl.name, nl.nextTag + 1, nl.objects ++ [(nl.nextTag, .inst id g conns)], nl.outputs⟩,
     .ok nl.nextTag)
  else
    (nl, .error (.ArgumentMismatch g.input_ports.length conns.length))

/-- Modelled from the spec: `expose_with_name` registers the net as a
module output under the given name. -/
def Netlist.expose_with_name (nl : Netlist) (n : Net) (s : String) : Netlist :=
  ⟨nl.name, nl.nextTag, nl.objects, nl.outputs ++ [(s, n)]⟩

/-- Whether a list holds a repeated element. -/
def hasDup {α : Type} [DecidableEq α] : List α → Bool
  | [] => false
  | x :: xs => xs.contains x || hasDup xs

/-- The elements of a list that occur in it more than once, once each. -/
def dups {α : Type} [DecidableEq α] (l : List α) : List α :=
  l.dedup.filter (fun x => decide (1 < l.count x))

/-- The exposed output names in exposure order. -/
def Netlist.outNames (nl : Netlist) : List String :=
  nl.outputs.map Prod.fst

/-- The instance identifiers in insertion order (boundary inputs carry no
instance identifier). -/
def Netlist.instIds (nl : Netlist) : List Identifier :=
  nl.objects.filterMap (fun p =>
    match p.2 with
    | .input _ => none
    | .inst id _ _ => some id)

/-- Modelled from the spec: `verify` checks, in this order, that (a) every
exposed output name is unique, (b) every instance identifier is unique,
(c) at least one output is exposed, and returns the first violated
invariant as a structured error; it never mutates the netlist. -/
def Netlist.verify (nl : Netlist) : Except Error Unit :=
  if hasDup nl.outNames then
    .error (.NonuniqueNets
      ((nl.outputs.filter (fun p => decide (1 < nl.outNames.count p.1))).map Prod.snd))
  else if hasDup nl.instIds then
    .error (.NonuniqueInsts (dups nl.instIds))
  else if nl.outputs.isEmpty then
    .error .NoOutputs
  else
    .ok ()

/-- A net rewritten for `replace_net_uses`: `old` becomes `nu`, anything
else is kept. -/
def replaceNet (old nu c : Net) : Net :=
  if c = old then nu else c

/-- Modelled from the spec: `replace_net_uses` rewrites every port
connection and every output exposure currently pointing at `old` to
point at `nu` instead, in one pass (the dynamic-mismatch failure branch
for nets of the wrong shape is not modelled; the claims only concern
the statically-rewirable success path). -/
def Netlist.replace_net_uses (nl : Netlist) (old nu : Net) : Netlist :=
  ⟨nl.name, nl.nextTag,
   nl.objects.map (fun p => (p.1, p.2.mapConns (replaceNet old nu))),
   nl.outputs.map (fun p => (p.1, replaceNet old nu p.2))⟩

/-- Occurrences of a net in a connection list. -/
def countOcc (x : Net) : List Net → Nat
  | [] => 0
  | c :: cs => (if c = x then 1 else 0) + countOcc x cs

/-- Occurrences of a net among all port connections of a tagged-object
list. -/
def objUseCount (x : Net) : List (Nat × Object) → Nat
  | [] => 0
  | p :: ps => countOcc x p.2.conns + objUseCount x ps

/-- Occurrences of a net among exposed output bindings. -/
def outUseCount (x : Net) : List (String × Net) → Nat
  | [] => 0
  | p :: ps => (if p.2 = x then 1 else 0) + outUseCount x ps

/-- The number of uses of a net in the netlist: port connections plus
output exposures. -/
def Netlist.countUses (nl : Netlist) (x : Net) : Nat :=
  objUseCount x nl.objects + outUseCount x nl.outputs

/-! ## Reachability and `clean` (modelled from the spec) -/

/-- The arena tags of the object's driver nets. -/
def Object.connTags (o : Object) : Finset Nat :=
  (o.conns.map Net.tag).toFinset

/-- The tags driving some object of `objs` whose own tag lies in `S`: one
backward step of the reachability traversal. -/
def stepFold (S : Finset Nat) : List (Nat × Object) → Finset Nat
  | [] => ∅
  | p :: ps => if p.1 ∈ S then p.2.connTags ∪ stepFold S ps else stepFold S ps

/-- One inflationary step of backward reachability over the arena. -/
def stepR (objs : List (Nat × Object)) (S : Finset Nat) : Finset Nat :=
  S ∪ stepFold S objs

/-- The tags referenced by the exposed outputs: the roots of the backward
traversal. -/
def rootTags (outs : List (String × Net)) : Finset Nat :=
  (outs.map (fun p => p.2.tag)).toFinset

/-- Every tag mentioned by some driver net in the arena. -/
def allConnTags : List (Nat × Object) → Finset Nat
  | [] => ∅
  | p :: ps => p.2.connTags ∪ allConnTags ps

/-- A finite universe containing every tag the traversal can ever visit. -/
def reachUniv (objs : List (Nat × Object)) (outs : List (String × Net)) : Finset Nat :=
  rootTags outs ∪ allConnTags objs

/-- Modelled from the spec: the set of arena tags transitively reachable
by following driver references backward from every exposed output,
computed by saturating the step function. -/
def reachSet (objs : List (Nat × Object)) (outs : List (String × Net)) : Finset Nat :=
  (stepR objs)^[(reachUniv objs outs).card + 1] (rootTags outs)

/-- The objects `clean` keeps: boundary inputs always, instances exactly
when their tag is reachable. -/
def keepPred (objs : List (Nat × Object)) (outs : List (String × Net)) (p : Nat × Object) :
    Bool :=
  p.2.isInput || decide (p.1 ∈ reachSet objs outs)

/-- Modelled from the spec: `clean` removes every instance not reachable
backward from the exposed outputs (boundary inputs are never removed)
and reports whether anything was removed. -/
def Netlist.clean (nl : Netlist) : Netlist × Bool :=
  (⟨nl.name, nl.nextTag, nl.objects.filter (keepPred nl.objects nl.outputs), nl.outputs⟩,
   decide ((nl.objects.filter (keepPred nl.objects nl.outputs)).length ≠ nl.objects.length))

/-- Backward reachability as an inductive relation: a tag is reached when
an exposed output refers to it, or when a reached instance of the arena
has a driver net referring to it. -/
inductive Reaches (objs : List (Nat × Object)) (outs : List (String × Net)) : Nat → Prop where
  | root (p : String × Net) (hp : p ∈ outs) : Reaches objs outs p.2.tag
  | step (t : Nat) (o : Object) (c : Net) (ht : Reaches objs outs t)
      (ho : (t, o) ∈ objs) (hc : c ∈ o.conns) : Reaches objs outs c.tag

/-! ## Concrete example data for witnesses and counterexamples -/

/-- A two-input AND-like cell, as built by `Gate::new_logical` in the
tests. -/
def andG : Gate :=
  ⟨"AND", ["A", "B"], ["Y"]⟩

/-- A cell with no input ports (its instances need no connections). -/
def srcG : Gate :=
  ⟨"G", [], ["Y"]⟩

/-- A netlist whose input net `a` is used twice as a port connection of
one instance, with the instance output exposed: fan-out example for
replacement. -/
def nlRep : Netlist :=
  let s1 := (Netlist.new "m").insert_input "a"
  let s2 := (s1.1.insert_gate andG (Identifier.new "i") [s1.2, s1.2]).1
  s2.expose_with_name (Net.instOutput 1 0) "y"

/-- A netlist with zero exposed outputs and two instances sharing the
identifier `i`. -/
def nlDupIds : Netlist :=
  (((Netlist.new "m").insert_gate srcG (Identifier.new "i") []).1.insert_gate
    srcG (Identifier.new "i") []).1

end SafetyNet

deriving instance DecidableEq for Except

namespace SafetyNet

/-! ## Claims about four-state logic -/

/-- C5: for every pair of four-state logic values, AND, OR and NOT follow
standard don't-care propagation — an `X` or `Z` operand in AND yields `X`
unless the other operand is `False` (then `False`); an `X` or `Z` operand
in OR yields `X` unless the other operand is `True` (then `True`); NOT of
`X` or `Z` is `X`; and on `True`/`False` operands alone the operators
agree with ordinary boolean AND, OR, NOT. -/
theorem logic_ops_dont_care_propagate (a b : Logic)
    (h : a = Logic.X ∨ a = Logic.Z ∨ b = Logic.X ∨ b = Logic.Z) :
    (a.bitand b = if a = Logic.False ∨ b = Logic.False then Logic.False else Logic.X) ∧
    (a.bitor b = if a = Logic.True ∨ b = Logic.True then Logic.True else Logic.X) ∧
    Logic.lnot Logic.X = Logic.X ∧ Logic.lnot Logic.Z = Logic.X ∧
    (∀ x y : Bool,
      (Logic.from_bool x).bitand (Logic.from_bool y) = Logic.from_bool (x && y) ∧
      (Logic.from_bool x).bitor (Logic.from_bool y) = Logic.from_bool (x || y) ∧
      (Logic.from_bool x).lnot = Logic.from_bool (!x)) := by
  cases a <;> cases b <;> revert h <;> decide

/-- Witness for C5 at a concrete pair: `X AND False` is the absorbing
`False`. -/
theorem logic_ops_dont_care_propagate_witness :
    (Logic.X = Logic.X ∨ Logic.X = Logic.Z ∨
      Logic.False = Logic.X ∨ Logic.False = Logic.Z) ∧
    (Logic.X.bitand Logic.False =
      if Logic.X = Logic.False ∨ Logic.False = Logic.False then Logic.False
      else Logic.X) :=
  ⟨Or.inl rfl, (logic_ops_dont_care_propagate Logic.X Logic.False (Or.inl rfl)).1⟩

/-- C6: parsing a four-state logic literal succeeds exactly on the eight
spellings of `Logic.literals`, the `1'h` forms alias the corresponding
`1'b` forms, and every other input yields a `ParseError` carrying the
input string. -/
theorem from_str_exact_literals (s : String) :
    ((∃ v, Logic.from_str s = Except.ok v) ↔ s ∈ Logic.literals) ∧
    (s ∉ Logic.literals → Logic.from_str s = Except.error (Error.ParseError s)) ∧
    Logic.from_str "1'h1" = Logic.from_str "1'b1" ∧
    Logic.from_str "1'h0" = Logic.from_str "1'b0" ∧
    Logic.from_str "1'hx" = Logic.from_str "1'bx" ∧
    Logic.from_str "1'hz" = Logic.from_str "1'bz" := by
  refine ⟨⟨?_, ?_⟩, ?_, rfl, rfl, rfl, rfl⟩
  · rintro ⟨v, hv⟩
    unfold Logic.from_str at hv
    split_ifs at hv with h1 h2 h3 h4
    · rcases h1 with h | h <;> subst h <;> simp [Logic.literals]
    · rcases h2 with h | h <;> subst h <;> simp [Logic.literals]
    · rcases h3 with h | h <;> subst h <;> simp [Logic.literals]
    · rcases h4 with h | h <;> subst h <;> simp [Logic.literals]
  · intro hs
    simp only [Logic.literals, List.mem_cons, List.not_mem_nil, or_false] at hs
    rcases hs with h | h | h | h | h | h | h | h <;> subst h <;> exact ⟨_, rfl⟩
  · intro hs
    simp only [Logic.literals, List.mem_cons, List.not_mem_nil, or_false] at hs
    push_neg at hs
    unfold Logic.from_str
    split_ifs with h1 h2 h3 h4
    · rcases h1 with h | h <;> exact absurd h (by tauto)
    · rcases h2 with h | h <;> exact absurd h (by tauto)
    · rcases h3 with h | h <;> exact absurd h (by tauto)
    · rcases h4 with h | h <;> exact absurd h (by tauto)
    · rfl

/-- Witness for C6: `"zzz"` is rejected with a `ParseError` carrying the
input, and `"1'b1"` is accepted. -/
theorem from_str_exact_literals_witness :
    ("zzz" ∉ Logic.literals) ∧
    Logic.from_str "zzz" = Except.error (Error.ParseError "zzz") ∧
    (∃ v, Logic.from_str "1'b1" = Except.ok v) :=
  ⟨by decide, (from_str_exact_literals "zzz").2.1 (by decide),
    (from_str_exact_literals "1'b1").1.mpr (by decide)⟩

/-- C9: `unwrap` and `expect` return `true` on `Logic.True` and `false` on
`Logic.False`, hit the panic arm (modelled as `none`) exactly on `X` and
`Z`, and under the precondition that the value is `True` or `False` the
panic arm is unreachable. -/
theorem unwrap_expect_truthy (v : Logic) (m : String)
    (h : v = Logic.True ∨ v = Logic.False) :
    (Logic.unwrap Logic.True = some true ∧ Logic.unwrap Logic.False = some false ∧
     Logic.unwrap Logic.X = none ∧ Logic.unwrap Logic.Z = none ∧
     Logic.expect Logic.True m = some true ∧ Logic.expect Logic.False m = some false ∧
     Logic.expect Logic.X m = none ∧ Logic.expect Logic.Z m = none) ∧
    (Logic.unwrap v).isSome = true ∧ (Logic.expect v m).isSome = true := by
  rcases h with rfl | rfl <;>
    exact ⟨⟨rfl, rfl, rfl, rfl, rfl, rfl, rfl, rfl⟩, rfl, rfl⟩

/-- Witness for C9 at `Logic.True`: the precondition holds and the panic
arm is not taken. -/
theorem unwrap_expect_truthy_witness :
    (Logic.True = Logic.True ∨ Logic.True = Logic.False) ∧
    (Logic.unwrap Logic.True).isSome = true :=
  ⟨Or.inl rfl, (unwrap_expect_truthy Logic.True "m" (Or.inl rfl)).2.1⟩

/-- C10: parsing the rendered textual form of any four-state logic value
round-trips — `from_str` applied to the displayed string (which equals
`as_str`) returns the value. -/
theorem from_str_roundtrip (v : Logic) :
    Logic.from_str v.as_str = Except.ok v ∧ v.toStr = v.as_str := by
  cases v <;> exact ⟨rfl, rfl⟩

/-! ## Claims about identifiers -/

/-- Flattening is the identity on bracket-free character lists. -/
theorem flattenChars_of_bracketFree (l : List Char)
    (h : l.all (fun c => !(c = '[' || c = ']')) = true) : flattenChars l = l := by
  induction l with
  | nil => rfl
  | cons c cs ih =>
    simp only [List.all_cons, Bool.and_eq_true] at h
    obtain ⟨hc, hcs⟩ := h
    simp only [Bool.not_eq_true', Bool.or_eq_false_iff, decide_eq_false_iff_not] at hc
    simp [flattenChars, hc.1, hc.2, ih hcs]

/-- Flattening is the identity on bracket-free strings. -/
theorem flattenStr_of_bracketFree (s : String) (h : bracketFree s = true) :
    flattenStr s = s := by
  cases s with
  | mk l =>
    show String.mk (flattenChars l) = String.mk l
    rw [flattenChars_of_bracketFree l h]

/-- C7: if either operand of identifier concatenation needs escaping, the
result needs escaping and its rendered form starts with the escape
marker (its first character is the backslash). -/
theorem concat_escaped_propagates (a b : Identifier)
    (h : (a.is_escaped || b.is_escaped) = true) :
    (a.concat b).is_escaped = true ∧ (a.concat b).rendered.data.take 1 = ['\\'] := by
  have he : (a.concat b).escaped = true := by
    simpa [Identifier.concat, Identifier.is_escaped] using h
  refine ⟨by simpa [Identifier.is_escaped] using he, ?_⟩
  simp [Identifier.rendered, he, String.data_append]

/-- Witness for C7 on the identifiers of the `aig_id` test: `1` needs
escaping, so the concatenation with `inv` does. -/
theorem concat_escaped_propagates_witness :
    ((Identifier.new "1").is_escaped || (Identifier.new "inv").is_escaped) = true ∧
    ((Identifier.new "1").concat (Identifier.new "inv")).is_escaped = true :=
  ⟨by decide, (concat_escaped_propagates _ _ (by decide)).1⟩

/-- C8: concatenation joins the operand names with an underscore after
flattening bracket-delimited indices (`id[1]` flattens to `id_1`), so
`id0` concatenated with `id[1]` yields the name `id0_id_1` (and, the
operand being escaped, the identifier `\id0_id_1`); on bracket-free
operands the names are joined unchanged. -/
theorem concat_flattens_and_joins :
    flattenStr "id[1]" = "id_1" ∧
    ((Identifier.new "id0").concat (Identifier.new "id[1]")).name = "id0_id_1" ∧
    (Identifier.new "id0").concat (Identifier.new "id[1]") = Identifier.new "\\id0_id_1" ∧
    ∀ a b : Identifier, bracketFree a.name = true → bracketFree b.name = true →
      (a.concat b).name = a.name ++ "_" ++ b.name := by
  refine ⟨by decide, by decide, by decide, ?_⟩
  intro a b ha hb
  simp [Identifier.concat, flattenStr_of_bracketFree _ ha, flattenStr_of_bracketFree _ hb]

/-- Witness for C8 on bracket-free operands: `x` and `y` join with a plain
underscore. -/
theorem concat_flattens_and_joins_witness :
    bracketFree (Identifier.new "x").name = true ∧
    bracketFree (Identifier.new "y").name = true ∧
    ((Identifier.new "x").concat (Identifier.new "y")).name =
      (Identifier.new "x").name ++ "_" ++ (Identifier.new "y").name :=
  ⟨by decide, by decide, concat_flattens_and_joins.2.2.2 _ _ (by decide) (by decide)⟩

/-! ## Claims about `insert_gate` arity checking and `verify` ordering -/

/-- C4: `insert_gate` fails, with the `ArgumentMismatch` error carrying
the expected and supplied counts, exactly when the number of supplied
connections differs from the cell's number of input ports; the failure
leaves the netlist unmutated, and on matching counts the call succeeds. -/
theorem insert_gate_arity (nl : Netlist) (g : Gate) (i : Identifier) (conns : List Net) :
    ((nl.insert_gate g i conns).2 =
        Except.error (Error.ArgumentMismatch g.input_ports.length conns.length) ↔
      conns.length ≠ g.input_ports.length) ∧
    (conns.length ≠ g.input_ports.length → (nl.insert_gate g i conns).1 = nl) ∧
    (conns.length = g.input_ports.length →
      (nl.insert_gate g i conns).2 = Except.ok nl.nextTag) := by
  unfold Netlist.insert_gate
  split_ifs with h <;> simp_all

/-- Witness for C4: supplying no connections to the two-input cell fails
with the argument-count error and leaves the netlist unchanged. -/
theorem insert_gate_arity_witness :
    ([] : List Net).length ≠ andG.input_ports.length ∧
    ((Netlist.new "m").insert_gate andG (Identifier.new "i") []).1 = Netlist.new "m" ∧
    ((Netlist.new "m").insert_gate andG (Identifier.new "i") []).2 =
      Except.error (Error.ArgumentMismatch andG.input_ports.length
        ([] : List Net).length) :=
  ⟨by decide, (insert_gate_arity _ _ _ _).2.1 (by decide),
    (insert_gate_arity _ _ _ _).1.mpr (by decide)⟩

/-- C3 counterexample: a netlist with zero exposed outputs whose two
instances share the identifier `i` fails `verify()` with the
non-unique-instances error — check (b) fires before the no-outputs
check (c) — refuting the claim that every netlist with zero exposed
outputs gets the no-outputs error even when instance-identifier
uniqueness is also violated. -/
theorem verify_zero_outputs_counterexample :
    nlDupIds.outputs = [] ∧
    nlDupIds.verify = Except.error (Error.NonuniqueInsts [Identifier.new "i"]) ∧
    nlDupIds.verify ≠ Except.error Error.NoOutputs :=
  ⟨rfl, by decide, by decide⟩

/-- C3 (amended): `verify` checks output-name uniqueness, then
instance-identifier uniqueness, then the existence of an exposed
output; hence a netlist with zero exposed outputs and pairwise distinct
instance identifiers fails with the no-outputs error (with zero
outputs, output-name uniqueness can never be the violated check). -/
theorem verify_no_outputs_when_ids_unique (nl : Netlist)
    (houts : nl.outputs = []) (hids : hasDup nl.instIds = false) :
    nl.verify = Except.error Error.NoOutputs := by
  simp [Netlist.verify, Netlist.outNames, houts, hids, hasDup]

/-- Witness for C3: the empty netlist has no outputs, no duplicate
instance identifiers, and fails `verify` with the no-outputs error. -/
theorem verify_no_outputs_when_ids_unique_witness :
    (Netlist.new "m").outputs = [] ∧ hasDup (Netlist.new "m").instIds = false ∧
    (Netlist.new "m").verify = Except.error Error.NoOutputs :=
  ⟨rfl, rfl, verify_no_outputs_when_ids_unique _ rfl rfl⟩

/-! ## Claims about `replace_net_uses` -/

/-- Rewriting the connections of an object rewrites exactly its driver
list. -/
theorem conns_mapConns (f : Net → Net) (o : Object) :
    (o.mapConns f).conns = o.conns.map f := by
  cases o <;> rfl

/-- Replacement maps the old net to the new one. -/
theorem replaceNet_self (x y : Net) : replaceNet x y x = y := by
  simp [replaceNet]

/-- Replacement keeps any other net. -/
theorem replaceNet_other (x y c : Net) (hc : c ≠ x) : replaceNet x y c = c := by
  simp [replaceNet, hc]

/-- After replacement, the old net no longer occurs in a connection
list. -/
theorem countOcc_map_replace_self (x y : Net) (h : x ≠ y) (l : List Net) :
    countOcc x (l.map (replaceNet x y)) = 0 := by
  induction l with
  | nil => rfl
  | cons c cs ih =>
    simp only [List.map_cons, countOcc, ih]
    by_cases hc : c = x
    · subst hc
      rw [replaceNet_self, if_neg (Ne.symm h)]
    · rw [replaceNet_other x y c hc, if_neg hc]

/-- After replacement, the new net occurs once per previous occurrence of
either net. -/
theorem countOcc_map_replace_target (x y : Net) (h : x ≠ y) (l : List Net) :
    countOcc y (l.map (replaceNet x y)) = countOcc y l + countOcc x l := by
  induction l with
  | nil => rfl
  | cons c cs ih =>
    simp only [List.map_cons, countOcc, ih]
    by_cases hc : c = x
    · subst hc
      rw [replaceNet_self, if_pos rfl, if_neg h, if_pos rfl]
      omega
    · rw [replaceNet_other x y c hc, if_neg hc]
      omega

/-- After replacement, the old net drives no port of any object. -/
theorem objUseCount_replace_self (x y : Net) (h : x ≠ y)
    (objs : List (Nat × Object)) :
    objUseCount x (objs.map (fun p => (p.1, p.2.mapConns (replaceNet x y)))) = 0 := by
  induction objs with
  | nil => rfl
  | cons p ps ih =>
    simp [objUseCount, ih, conns_mapConns, countOcc_map_replace_self x y h]

/-- After replacement, the new net's port uses are the two nets' previous
port uses combined. -/
theorem objUseCount_replace_target (x y : Net) (h : x ≠ y)
    (objs : List (Nat × Object)) :
    objUseCount y (objs.map (fun p => (p.1, p.2.mapConns (replaceNet x y)))) =
      objUseCount y objs + objUseCount x objs := by
  induction objs with
  | nil => rfl
  | cons p ps ih =>
    simp [objUseCount, ih, conns_mapConns, countOcc_map_replace_target x y h]
    omega

/-- After replacement, the old net is exposed by no output. -/
theorem outUseCount_replace_self (x y : Net) (h : x ≠ y)
    (outs : List (String × Net)) :
    outUseCount x (outs.map (fun p => (p.1, replaceNet x y p.2))) = 0 := by
  induction outs with
  | nil => rfl
  | cons p ps ih =>
    simp only [List.map_cons, outUseCount, ih]
    by_cases hc : p.2 = x
    · simp only [hc, replaceNet_self]
      rw [if_neg (Ne.symm h)]
    · simp only [replaceNet_other x y p.2 hc]
      rw [if_neg hc]

/-- After replacement, the new net's exposures are the two nets' previous
exposures combined. -/
theorem outUseCount_replace_target (x y : Net) (h : x ≠ y)
    (outs : List (String × Net)) :
    outUseCount y (outs.map (fun p => (p.1, replaceNet x y p.2))) =
      outUseCount y outs + outUseCount x outs := by
  induction outs with
  | nil => rfl
  | cons p ps ih =>
    simp only [List.map_cons, outUseCount, ih]
    by_cases hc : p.2 = x
    · simp only [hc, replaceNet_self]
      simp [h]
      omega
    · simp only [replaceNet_other x y p.2 hc]
      rw [if_neg hc]
      omega

/-- C1: for a net `x` with any number of distinct uses (port connections
and/or output exposures), `replace_net_uses x y` rewires all of them in
one step — afterwards `x` has zero uses and `y` carries every use the
two nets had before; no partial-replacement outcome exists. -/
theorem replace_net_uses_all_uses (nl : Netlist) (x y : Net) (h : x ≠ y) :
    (nl.replace_net_uses x y).countUses x = 0 ∧
    (nl.replace_net_uses x y).countUses y = nl.countUses y + nl.countUses x := by
  unfold Netlist.replace_net_uses Netlist.countUses
  constructor
  · simp [objUseCount_replace_self x y h, outUseCount_replace_self x y h]
  · simp [objUseCount_replace_target x y h, outUseCount_replace_target x y h]
    omega

/-- Witness for C1 on the fan-out example `nlRep`: the input net has three
uses (two port connections and, after the rewrite, they all move to the
instance-output net). -/
theorem replace_net_uses_all_uses_witness :
    (Net.input 0 ≠ Net.instOutput 1 0) ∧
    (nlRep.replace_net_uses (Net.input 0) (Net.instOutput 1 0)).countUses
      (Net.input 0) = 0 ∧
    (nlRep.replace_net_uses (Net.input 0) (Net.instOutput 1 0)).countUses
        (Net.instOutput 1 0) =
      nlRep.countUses (Net.instOutput 1 0) + nlRep.countUses (Net.input 0) :=
  ⟨by decide, (replace_net_uses_all_uses nlRep _ _ (by decide)).1,
    (replace_net_uses_all_uses nlRep _ _ (by decide)).2⟩

/-! ## Reachability lemmas and idempotence of `clean` -/

/-- Membership in an object's driver-tag set. -/
theorem mem_connTags (o : Object) (x : Nat) :
    x ∈ o.connTags ↔ ∃ c ∈ o.conns, c.tag = x := by
  simp [Object.connTags]

/-- Membership in one backward step from `S`. -/
theorem mem_stepFold (S : Finset Nat) (objs : List (Nat × Object)) (x : Nat) :
    x ∈ stepFold S objs ↔ ∃ p ∈ objs, p.1 ∈ S ∧ x ∈ p.2.connTags := by
  induction objs with
  | nil => simp [stepFold]
  | cons p ps ih =>
    simp only [stepFold]
    split_ifs with hp
    · constructor
      · intro hx
        rcases Finset.mem_union.mp hx with hx | hx
        · exact ⟨p, List.mem_cons_self p ps, hp, hx⟩
        · obtain ⟨q, hq, h1, h2⟩ := ih.mp hx
          exact ⟨q, List.mem_cons_of_mem p hq, h1, h2⟩
      · rintro ⟨q, hq, h1, h2⟩
        rcases List.mem_cons.mp hq with rfl | hq
        · exact Finset.mem_union_left _ h2
        · exact Finset.mem_union_right _ (ih.mpr ⟨q, hq, h1, h2⟩)
    · constructor
      · intro hx
        obtain ⟨q, hq, h1, h2⟩ := ih.mp hx
        exact ⟨q, List.mem_cons_of_mem p hq, h1, h2⟩
      · rintro ⟨q, hq, h1, h2⟩
        rcases List.mem_cons.mp hq with rfl | hq
        · exact absurd h1 hp
        · exact ih.mpr ⟨q, hq, h1, h2⟩

/-- The step function is inflationary. -/
theorem subset_stepR (objs : List (Nat × Object)) (S : Finset Nat) :
    S ⊆ stepR objs S :=
  Finset.subset_union_left

/-- One backward step only produces driver tags of the arena. -/
theorem stepFold_subset_allConnTags (S : Finset Nat) (objs : List (Nat × Object)) :
    stepFold S objs ⊆ allConnTags objs := by
  induction objs with
  | nil => simp [stepFold, allConnTags]
  | cons p ps ih =>
    simp only [stepFold, allConnTags]
    split_ifs with hp
    · exact Finset.union_subset_union subset_rfl ih
    · exact ih.trans Finset.subset_union_right

/-- The step function stays inside the tag universe. -/
theorem stepR_subset_univ (objs : List (Nat × Object)) (outs : List (String × Net))
    (S : Finset Nat) (hS : S ⊆ reachUniv objs outs) :
    stepR objs S ⊆ reachUniv objs outs :=
  Finset.union_subset hS
    ((stepFold_subset_allConnTags S objs).trans Finset.subset_union_right)

/-- An inflationary self-map of subsets of a finite universe reaches a
fixed point within one more iteration than the universe's size. -/
theorem iterate_fixed_point (f : Finset Nat → Finset Nat) (U S0 : Finset Nat)
    (hinfl : ∀ S, S ⊆ f S) (hU : ∀ S, S ⊆ U → f S ⊆ U) (hS0 : S0 ⊆ U) :
    f (f^[U.card + 1] S0) = f^[U.card + 1] S0 := by
  by_contra hne
  have hsub : ∀ k, f^[k] S0 ⊆ U := by
    intro k
    induction k with
    | zero => simpa using hS0
    | succ k ih =>
      rw [Function.iterate_succ_apply']
      exact hU _ ih
  have hnofix : ∀ j, j ≤ U.card + 1 → f (f^[j] S0) ≠ f^[j] S0 := by
    intro j hj hfix
    apply hne
    have hpersist : ∀ m, f^[j + m] S0 = f^[j] S0 := by
      intro m
      induction m with
      | zero => rfl
      | succ m ih =>
        have hjm : j + (m + 1) = (j + m) + 1 := by omega
        rw [hjm, Function.iterate_succ_apply', ih, hfix]
    have hev : U.card + 1 = j + (U.card + 1 - j) := by omega
    calc f (f^[U.card + 1] S0)
        = f (f^[j + (U.card + 1 - j)] S0) := by rw [← hev]
      _ = f (f^[j] S0) := by rw [hpersist]
      _ = f^[j] S0 := hfix
      _ = f^[j + (U.card + 1 - j)] S0 := (hpersist _).symm
      _ = f^[U.card + 1] S0 := by rw [← hev]
  have hcard : ∀ j, j ≤ U.card + 1 → j ≤ (f^[j] S0).card := by
    intro j
    induction j with
    | zero => intro _; exact Nat.zero_le _
    | succ j ih =>
      intro hj
      have h1 : f^[j] S0 ⊆ f^[j + 1] S0 := by
        rw [Function.iterate_succ_apply']
        exact hinfl _
      have h2 : f^[j + 1] S0 ≠ f^[j] S0 := by
        rw [Function.iterate_succ_apply']
        exact hnofix j (by omega)
      have hss : f^[j] S0 ⊂ f^[j + 1] S0 := h1.ssubset_of_ne (Ne.symm h2)
      have hlt := Finset.card_lt_card hss
      have hih := ih (by omega)
      omega
  have h1 := hcard (U.card + 1) le_rfl
  have h2 := Finset.card_le_card (hsub (U.card + 1))
  omega

/-- The saturated reachable set is a fixed point of the step function. -/
theorem stepR_reachSet (objs : List (Nat × Object)) (outs : List (String × Net)) :
    stepR objs (reachSet objs outs) = reachSet objs outs :=
  iterate_fixed_point (stepR objs) (reachUniv objs outs) (rootTags outs)
    (fun _ => Finset.subset_union_left)
    (fun S hS => stepR_subset_univ objs outs S hS)
    Finset.subset_union_left

/-- The roots stay inside every iterate of an inflationary map. -/
theorem subset_iterate_of_infl (f : Finset Nat → Finset Nat)
    (hinfl : ∀ S, S ⊆ f S) (S0 : Finset Nat) (k : Nat) : S0 ⊆ f^[k] S0 := by
  induction k with
  | zero => exact subset_rfl
  | succ k ih =>
    rw [Function.iterate_succ_apply']
    exact ih.trans (hinfl _)

/-- Completeness of the saturated set: every inductively reachable tag is
in it. -/
theorem reaches_mem_reachSet (objs : List (Nat × Object)) (outs : List (String × Net))
    (t : Nat) (h : Reaches objs outs t) : t ∈ reachSet objs outs := by
  induction h with
  | root p hp =>
    have hroot : p.2.tag ∈ rootTags outs := by
      simp only [rootTags, List.mem_toFinset, List.mem_map]
      exact ⟨p, hp, rfl⟩
    exact subset_iterate_of_infl (stepR objs) (subset_stepR objs) (rootTags outs) _ hroot
  | step t o c ht ho hc ih =>
    have hmem : c.tag ∈ stepR objs (reachSet objs outs) :=
      Finset.mem_union_right _
        ((mem_stepFold _ _ _).mpr
          ⟨(t, o), ho, ih, (mem_connTags o c.tag).mpr ⟨c, hc, rfl⟩⟩)
    rwa [stepR_reachSet] at hmem

/-- Soundness of the iteration: members of any iterate are inductively
reachable. -/
theorem mem_iterate_reaches (objs : List (Nat × Object)) (outs : List (String × Net))
    (k : Nat) (t : Nat) (ht : t ∈ (stepR objs)^[k] (rootTags outs)) :
    Reaches objs outs t := by
  induction k generalizing t with
  | zero =>
    simp only [Function.iterate_zero, id] at ht
    simp only [rootTags, List.mem_toFinset, List.mem_map] at ht
    obtain ⟨p, hp, htag⟩ := ht
    exact htag ▸ Reaches.root p hp
  | succ k ih =>
    rw [Function.iterate_succ_apply'] at ht
    rcases Finset.mem_union.mp ht with h | h
    · exact ih t h
    · obtain ⟨p, hp, hpS, htag⟩ := (mem_stepFold _ _ _).mp h
      obtain ⟨c, hc, hct⟩ := (mem_connTags p.2 t).mp htag
      exact hct ▸ Reaches.step p.1 p.2 c (ih p.1 hpS) hp hc

/-- Soundness of the saturated set. -/
theorem mem_reachSet_reaches (objs : List (Nat × Object)) (outs : List (String × Net))
    (t : Nat) (ht : t ∈ reachSet objs outs) : Reaches objs outs t :=
  mem_iterate_reaches objs outs _ t ht

/-- Dropping only unreachable instances preserves inductive
reachability. -/
theorem reaches_filter_keep (objs : List (Nat × Object)) (outs : List (String × Net))
    (t : Nat) (h : Reaches objs outs t) :
    Reaches (objs.filter (keepPred objs outs)) outs t := by
  induction h with
  | root p hp => exact Reaches.root p hp
  | step t o c ht ho hc ih =>
    refine Reaches.step t o c ih ?_ hc
    refine List.mem_filter.mpr ⟨ho, ?_⟩
    have hR : t ∈ reachSet objs outs := reaches_mem_reachSet objs outs t ht
    simp [keepPred, hR]

/-- C2: `clean` is idempotent — after one `clean`, a second `clean` with
no intervening mutation removes nothing and reports `false`. -/
theorem clean_clean_reports_nothing (nl : Netlist) :
    ((nl.clean).1.clean).2 = false := by
  have key : ∀ p ∈ nl.objects.filter (keepPred nl.objects nl.outputs),
      keepPred (nl.objects.filter (keepPred nl.objects nl.outputs)) nl.outputs p = true := by
    intro p hp
    obtain ⟨hmem, hkeep⟩ := List.mem_filter.mp hp
    cases hii : p.2.isInput with
    | true => simp [keepPred, hii]
    | false =>
      have hR : p.1 ∈ reachSet nl.objects nl.outputs := by
        simpa [keepPred, hii] using hkeep
      have h1 : Reaches nl.objects nl.outputs p.1 :=
        mem_reachSet_reaches nl.objects nl.outputs p.1 hR
      have h2 : Reaches (nl.objects.filter (keepPred nl.objects nl.outputs))
          nl.outputs p.1 :=
        reaches_filter_keep nl.objects nl.outputs p.1 h1
      have h3 := reaches_mem_reachSet _ nl.outputs p.1 h2
      simp [keepPred, h3]
  have heq :
      (nl.objects.filter (keepPred nl.objects nl.outputs)).filter
        (keepPred (nl.objects.filter (keepPred nl.objects nl.outputs)) nl.outputs) =
      nl.objects.filter (keepPred nl.objects nl.outputs) :=
    List.filter_eq_self.mpr key
  simp [Netlist.clean, heq]

end SafetyNet
